import Mathlib

/-!
Verification of the AI request orchestration and streaming subsystem of the
lumen-browser repository: the SSE stream decoder, the provider retry policy,
the cost estimator and usage ledger, the dispatcher (bounded-concurrency FIFO
queue with cancellation), and the provider error formatting.

Strings are modelled as `List Char`; JavaScript numbers as `ℚ`; the
JavaScript event loop as an explicit state machine over submission,
completion and cancellation events.
-/

namespace LumenAI

/-! ## SSE stream decoder (src/main/ai/providers/common.ts)

`parseSSEChunk` splits the pending buffer on the regular expression
`/\r?\n\r?\n/` (JavaScript `String.split`), keeps the trailing segment as the
new buffer and treats every earlier segment as one event.  `sepMatch` is the
leftmost-greedy match of that regular expression at the head of the buffer:
the length of the separator matched there, if any. -/
def sepMatch (s : List Char) : Option Nat :=
  if s.take 2 = ['\r', '\n'] then
    if s.take 4 = ['\r', '\n', '\r', '\n'] then some 4
    else if s.take 3 = ['\r', '\n', '\n'] then some 3
    else none
  else if s.take 3 = ['\n', '\r', '\n'] then some 3
  else if s.take 2 = ['\n', '\n'] then some 2
  else none

theorem sepMatch_bounds {s : List Char} {n : Nat} (h : sepMatch s = some n) :
    2 ≤ n ∧ n ≤ s.length := by
  unfold sepMatch at h
  split_ifs at h with h1 h2 h3 h4 h5 <;> injection h with h <;> subst h
  · have := congrArg List.length h2
    simp [List.length_take] at this
    omega
  · have := congrArg List.length h3
    simp [List.length_take] at this
    omega
  · have := congrArg List.length h4
    simp [List.length_take] at this
    omega
  · have := congrArg List.length h5
    simp [List.length_take] at this
    omega

/-- Prepend a character to the first segment of a split. -/
def consHead (c : Char) : List (List Char) → List (List Char)
  | [] => [[c]]
  | seg :: segs => (c :: seg) :: segs

/-- The `buffer.split(/\r?\n\r?\n/)` of the source: the list of segments, in
order; always non-empty (the last entry is the trailing partial segment). -/
def splitSegs (s : List Char) : List (List Char) :=
  match hm : sepMatch s with
  | some n => [] :: splitSegs (s.drop n)
  | none =>
    match s with
    | [] => [[]]
    | c :: rest => consHead c (splitSegs rest)
termination_by s.length
decreasing_by
  · have := sepMatch_bounds hm
    simp only [List.length_drop]
    omega
  · simp

theorem splitSegs_of_some {s : List Char} {n : Nat} (h : sepMatch s = some n) :
    splitSegs s = [] :: splitSegs (s.drop n) := by
  rw [splitSegs]
  split
  · rename_i m hm
    rw [h] at hm
    injection hm with hm
    rw [hm]
  · rename_i hm
    rw [h] at hm
    exact Option.noConfusion hm

theorem splitSegs_nil : splitSegs [] = [[]] := by
  rw [splitSegs]
  rfl

theorem splitSegs_of_none_cons {c : Char} {rest : List Char}
    (h : sepMatch (c :: rest) = none) :
    splitSegs (c :: rest) = consHead c (splitSegs rest) := by
  rw [splitSegs]
  split
  · rename_i m hm
    rw [h] at hm
    exact absurd hm (by simp)
  · rfl

theorem consHead_ne_nil (c : Char) (l : List (List Char)) :
    consHead c l ≠ [] := by
  cases l <;> simp [consHead]

theorem splitSegs_ne_nil (s : List Char) : splitSegs s ≠ [] := by
  rw [splitSegs]
  split
  · simp
  · split
    · simp
    · exact consHead_ne_nil _ _

/-- A separator matched at the head of `s` is matched unchanged at the head of
`s ++ t`: the leftmost-greedy match never grows when more input arrives. -/
theorem sepMatch_append_some {s : List Char} {n : Nat} (h : sepMatch s = some n)
    (t : List Char) : sepMatch (s ++ t) = some n := by
  match s with
  | [] => simp [sepMatch] at h
  | [a] =>
    simp only [sepMatch, List.take] at h
    split_ifs at h <;> simp_all
  | [a, b] =>
    simp only [sepMatch, List.take] at h
    split_ifs at h with h1 h2 h3 h4 h5 <;> simp_all
    simp [sepMatch, List.take, h]
  | [a, b, c] =>
    simp only [sepMatch, List.take] at h
    split_ifs at h with h1 h2 h3 h4 h5 <;> simp_all <;>
      simp [sepMatch, List.take, h]
  | a :: b :: c :: d :: s' =>
    simp only [sepMatch, List.take, List.cons_append] at h ⊢
    exact h

theorem sepMatch_singleton (a : Char) : sepMatch [a] = none := by
  simp [sepMatch, List.take]

theorem splitSegs_singleton (a : Char) : splitSegs [a] = [[a]] := by
  rw [splitSegs_of_none_cons (sepMatch_singleton a), splitSegs_nil]
  rfl

/-- When no separator matches at the head of `s` but one matches at the head
of `s ++ t` (a "phantom" match created by the appended text), `s` is a proper
prefix of a separator, so the whole of `s` is one partial segment. -/
theorem splitSegs_of_phantom {s t : List Char} (h1 : sepMatch s = none)
    {n : Nat} (h2 : sepMatch (s ++ t) = some n) : splitSegs s = [s] := by
  match s with
  | [] => exact splitSegs_nil
  | [a] => exact splitSegs_singleton a
  | [a, b] =>
    rw [splitSegs_of_none_cons h1, splitSegs_singleton]
    rfl
  | [a, b, c] =>
    have hbc : sepMatch [b, c] = none := by
      simp only [sepMatch, List.take, List.cons_append] at h1 h2 ⊢
      split_ifs at h1 h2 ⊢ <;> simp_all
    have hc : sepMatch [c] = none := sepMatch_singleton c
    rw [splitSegs_of_none_cons h1, splitSegs_of_none_cons hbc,
      splitSegs_singleton]
    rfl
  | a :: b :: c :: d :: s' =>
    exfalso
    simp only [sepMatch, List.take, List.cons_append] at h1 h2
    rw [h1] at h2
    exact Option.noConfusion h2

/-- A buffer that splits into a single segment is that segment: no separator
occurs anywhere in it. -/
theorem splitSegs_single {s x : List Char} (h : splitSegs s = [x]) : x = s := by
  induction s using splitSegs.induct generalizing x with
  | case1 s n hm ih =>
    rw [splitSegs_of_some hm] at h
    obtain ⟨h1, h2⟩ := List.cons_eq_cons.mp h
    exact absurd h2 (splitSegs_ne_nil _)
  | case2 hm1 hm2 =>
    rw [splitSegs_nil] at h
    exact ((List.cons_eq_cons.mp h).1).symm
  | case3 c rest hm hm2 ih =>
    rw [splitSegs_of_none_cons hm] at h
    cases hr : splitSegs rest with
    | nil => exact absurd hr (splitSegs_ne_nil rest)
    | cons seg segs =>
      rw [hr] at h
      simp only [consHead] at h
      obtain ⟨h1, h2⟩ := List.cons_eq_cons.mp h
      subst h2
      rw [← h1, ih hr]

theorem getLastD_of_ne_nil {α : Type} (l : List α) (h : l ≠ []) (d d' : α) :
    l.getLastD d = l.getLastD d' := by
  cases l with
  | nil => exact absurd rfl h
  | cons x xs => rw [List.getLastD_cons, List.getLastD_cons]

theorem splitSegs_of_none_cons2 {c : Char} {rest seg : List Char}
    {segs : List (List Char)} (h : sepMatch (c :: rest) = none)
    (hr : splitSegs rest = seg :: segs) :
    splitSegs (c :: rest) = (c :: seg) :: segs := by
  rw [splitSegs_of_none_cons h, hr]
  rfl

/-- Splitting a buffer extended by `t` emits the complete segments of the old
buffer unchanged, then splits the retained partial segment extended by `t`:
the correctness core of the incremental pending-buffer algorithm. -/
theorem splitSegs_append (s t : List Char) :
    splitSegs (s ++ t) =
      (splitSegs s).dropLast ++ splitSegs ((splitSegs s).getLastD [] ++ t) := by
  induction s using splitSegs.induct with
  | case1 s n hm ih =>
    have hb := sepMatch_bounds hm
    rw [splitSegs_of_some (sepMatch_append_some hm t),
      List.drop_append_of_le_length hb.2, splitSegs_of_some hm,
      List.dropLast_cons_of_ne_nil (splitSegs_ne_nil _),
      List.getLastD_cons, ih, List.cons_append]
  | case2 hm1 hm2 =>
    rw [List.nil_append, splitSegs_nil]
    simp
  | case3 c rest hm hm2 ih =>
    cases hn : sepMatch (c :: rest ++ t) with
    | some n =>
      rw [splitSegs_of_phantom hm hn]
      simp
    | none =>
      rw [List.cons_append] at hn
      cases hr : splitSegs rest with
      | nil => exact absurd hr (splitSegs_ne_nil rest)
      | cons seg segs =>
        cases segs with
        | nil =>
          have hseg : seg = rest := splitSegs_single hr
          subst hseg
          rw [splitSegs_of_none_cons2 hm hr]
          simp
        | cons g gs =>
          have hrt : splitSegs (rest ++ t) =
              seg :: ((g :: gs).dropLast ++
                splitSegs ((g :: gs).getLastD [] ++ t)) := by
            rw [ih, hr, List.dropLast_cons_of_ne_nil (by simp),
              List.getLastD_cons,
              getLastD_of_ne_nil (g :: gs) (by simp) seg [], List.cons_append]
          rw [List.cons_append, splitSegs_of_none_cons2 hn hrt,
            splitSegs_of_none_cons2 hm hr,
            @List.dropLast_cons_of_ne_nil _ (c :: seg) (g :: gs) (by simp),
            List.getLastD_cons [] (c :: seg) (g :: gs),
            getLastD_of_ne_nil (g :: gs) (by simp) (c :: seg) [],
            List.cons_append]

theorem getLastD_append_of_ne_nil {α : Type} (A B : List α) (h : B ≠ []) :
    ∀ d : α, (A ++ B).getLastD d = B.getLastD d := by
  induction A with
  | nil => intro d; rfl
  | cons a A ih =>
    intro d
    rw [List.cons_append, List.getLastD_cons, ih a, getLastD_of_ne_nil B h a d]

/-- Fuel-indexed evaluator for `splitSegs`, used to compute it on concrete
buffers (the fuel bounds the number of scanning steps). -/
def splitSegsB : Nat → List Char → List (List Char)
  | 0, s => [s]
  | fuel + 1, s =>
    match sepMatch s with
    | some n => [] :: splitSegsB fuel (s.drop n)
    | none =>
      match s with
      | [] => [[]]
      | c :: rest => consHead c (splitSegsB fuel rest)

theorem splitSegsB_eq :
    ∀ (fuel : Nat) (s : List Char), s.length ≤ fuel →
      splitSegsB fuel s = splitSegs s := by
  intro fuel
  induction fuel with
  | zero =>
    intro s h
    have hs : s = [] := List.length_eq_zero.mp (Nat.le_zero.mp h)
    rw [hs, splitSegs_nil]
    rfl
  | succ fuel ih =>
    intro s h
    cases hm : sepMatch s with
    | some n =>
      have hb := sepMatch_bounds hm
      simp only [splitSegsB, hm]
      rw [splitSegs_of_some hm, ih]
      simp only [List.length_drop]
      omega
    | none =>
      cases s with
      | nil =>
        simp only [splitSegsB, hm]
        rw [splitSegs_nil]
      | cons c rest =>
        simp only [splitSegsB, hm]
        rw [splitSegs_of_none_cons hm, ih]
        simp at h
        omega

/-! ## Payload extraction and the incremental reading loop
(`readSSEStream` in src/main/ai/providers/common.ts) -/

/-- `event.split(/\r?\n/)`: the line splitter applied inside one event. -/
def splitLines : List Char → List (List Char)
  | '\r' :: '\n' :: rest => [] :: splitLines rest
  | '\n' :: rest => [] :: splitLines rest
  | c :: rest => consHead c (splitLines rest)
  | [] => [[]]

/-- The whitespace class removed by JavaScript `String.prototype.trim`
(ASCII whitespace plus no-break space and the byte-order mark). -/
def isJsSpace (c : Char) : Bool :=
  c = ' ' || c = '\t' || c = '\n' || c = '\r' ||
    c = Char.ofNat 11 || c = Char.ofNat 12 ||
    c = Char.ofNat 160 || c = Char.ofNat 65279

/-- JavaScript `String.prototype.trim` on a character list. -/
def jsTrim (s : List Char) : List Char :=
  ((s.dropWhile isJsSpace).reverse.dropWhile isJsSpace).reverse

def dataLinePrefix : List Char := 'd' :: 'a' :: 't' :: 'a' :: ':' :: []

/-- The payloads one complete event segment contributes, in document order:
every line beginning with `data:` yields the trimmed remainder, and (as in
the source's `.filter(Boolean)`) empty payloads are dropped. -/
def dataLinesOfEvent (event : List Char) : List (List Char) :=
  (((splitLines event).filter fun line =>
      List.isPrefixOf dataLinePrefix line).map fun line =>
    jsTrim (line.drop 5)).filter fun payload => !payload.isEmpty

/-- `parseSSEChunk` of the source: the complete events before the final
(possibly partial) segment, and that final segment as the retained rest. -/
def parseSSEChunk (buffer : List Char) : List (List Char) × List Char :=
  ((splitSegs buffer).dropLast, (splitSegs buffer).getLastD [])

/-- The loop of `readSSEStream`: starting from a pending buffer, append each
received chunk, split off the complete events, emit their `data:` payloads in
order and retain the trailing partial segment.  Returns the emitted payload
sequence and the final pending buffer. -/
def readSSEStream (pending : List Char) :
    List (List Char) → List (List Char) × List Char
  | [] => ([], pending)
  | chunk :: chunks =>
    let parsed := parseSSEChunk (pending ++ chunk)
    let next := readSSEStream parsed.2 chunks
    (parsed.1.flatMap dataLinesOfEvent ++ next.1, next.2)

/-- Feeding any non-empty chunk sequence equals feeding its concatenation at
once: both emit the `data:` payloads of the complete events of
`pending ++ concatenation` and retain the final partial segment. -/
theorem readSSEStream_closed_form (cs : List (List Char)) :
    ∀ p : List Char, cs ≠ [] →
      readSSEStream p cs =
        ((splitSegs (p ++ cs.flatten)).dropLast.flatMap dataLinesOfEvent,
          (splitSegs (p ++ cs.flatten)).getLastD []) := by
  induction cs with
  | nil => intro p h; exact absurd rfl h
  | cons c cs ih =>
    intro p h
    cases cs with
    | nil => simp [readSSEStream, parseSSEChunk]
    | cons c2 cs2 =>
      have hstep : readSSEStream p (c :: c2 :: cs2) =
          ((parseSSEChunk (p ++ c)).1.flatMap dataLinesOfEvent ++
            (readSSEStream (parseSSEChunk (p ++ c)).2 (c2 :: cs2)).1,
            (readSSEStream (parseSSEChunk (p ++ c)).2 (c2 :: cs2)).2) := rfl
      rw [hstep, ih _ (by simp)]
      simp only [parseSSEChunk]
      have hassoc : p ++ (c :: c2 :: cs2).flatten =
          (p ++ c) ++ (c2 :: cs2).flatten := by
        simp [List.flatten]
      rw [hassoc, splitSegs_append (p ++ c) ((c2 :: cs2).flatten)]
      rw [List.dropLast_append_of_ne_nil _ (splitSegs_ne_nil _),
        getLastD_append_of_ne_nil _ _ (splitSegs_ne_nil _),
        List.flatMap_append]

theorem readSSEStream_flatten (chunks : List (List Char)) :
    readSSEStream [] chunks = readSSEStream [] [chunks.flatten] := by
  cases chunks with
  | nil => simp [readSSEStream, parseSSEChunk, splitSegs_nil]
  | cons c cs =>
    rw [readSSEStream_closed_form _ _ (by simp),
      readSSEStream_closed_form _ _ (by simp)]
    simp

/-- The example input of the spec: `data: {"a":1}\n\ndata: [DONE]\n\n`. -/
def sseInput : List Char := "data: \x7b\"a\":1\x7d\n\ndata: [DONE]\n\n".data

/-- C6: the SSE decoder is chunking-invariant — feeding any chunk sequence
through the pending-buffer algorithm emits exactly the payload sequence (and
retains the rest) of processing the concatenated input at once; in
particular, every two-chunk split of `data: {"a":1}\n\ndata: [DONE]\n\n`
emits exactly the payloads `{"a":1}` and `[DONE]`, in that order. -/
theorem sse_decoder_chunking_invariant :
    (∀ chunks : List (List Char),
      readSSEStream [] chunks = readSSEStream [] [chunks.flatten]) ∧
    ∀ k : Nat,
      (readSSEStream [] [sseInput.take k, sseInput.drop k]).1 =
        ["\x7b\"a\":1\x7d".data, "[DONE]".data] := by
  refine ⟨readSSEStream_flatten, fun k => ?_⟩
  rw [readSSEStream_flatten]
  have hj : [sseInput.take k, sseInput.drop k].flatten = sseInput := by
    simp
  rw [hj]
  have hsplit : splitSegs sseInput =
      ["data: \x7b\"a\":1\x7d".data, "data: [DONE]".data, []] := by
    rw [← splitSegsB_eq sseInput.length sseInput (Nat.le_refl _)]
    decide
  rw [readSSEStream_closed_form _ _ (by simp)]
  simp only [List.flatten, List.append_nil, List.nil_append]
  rw [hsplit]
  decide

/-! ## Dispatcher: bounded-concurrency FIFO queue (src/main/ipc/ai.ts)

The registered handlers close over `activeStreams`, the FIFO `queue` and the
counter `runningStreams`; the JavaScript event loop interleaves submissions
(`ai:start-chat`), completions (a run's `finally`) and cancellations
(`ai:cancel-chat`) atomically.  The state machine below embeds exactly those
mutations; `started` and `popped` are history variables recording the order in
which provider calls began and queue items were popped. -/

def maxConcurrentStreams : Nat := 2

structure DState where
  queue : List Nat
  active : List Nat
  running : List Nat
  runningStreams : Nat
  submitted : List Nat
  started : List Nat
  popped : List Nat

def initState : DState := ⟨[], [], [], 0, [], [], []⟩

/-- The `runQueue` while-loop over the popped-off queue `q`: while
`runningStreams < MAX_CONCURRENT_STREAMS` and the queue is non-empty, pop the
head, skip it when its controller is gone, otherwise start it. -/
def drainAux : DState → List Nat → DState
  | s, [] => { s with queue := [] }
  | s, rid :: rest =>
    if s.runningStreams < maxConcurrentStreams then
      if rid ∈ s.active then
        drainAux { s with
          running := s.running ++ [rid],
          runningStreams := s.runningStreams + 1,
          started := s.started ++ [rid],
          popped := s.popped ++ [rid] } rest
      else
        drainAux { s with popped := s.popped ++ [rid] } rest
    else { s with queue := rid :: rest }

def runQueue (s : DState) : DState := drainAux s s.queue

/-- Admission inside `ai:start-chat`: create the stream controller and append
the work item to the FIFO queue (in both capacity branches). -/
def enqueue (s : DState) (id : Nat) : DState :=
  { s with
    active := s.active ++ [id],
    queue := s.queue ++ [id],
    submitted := s.submitted ++ [id] }

inductive DEvent where
  | submit (id : Nat)
  | complete (id : Nat)
  | cancel (id : Nat)

/-- One event-loop turn: a submission (with its fresh `randomUUID` id), the
completion callback of a running stream, or a cancellation request. -/
def applyEvent (s : DState) : DEvent → DState
  | .submit id =>
    if id ∈ s.submitted then s
    else if maxConcurrentStreams ≤ s.runningStreams then enqueue s id
    else runQueue (enqueue s id)
  | .complete id =>
    if id ∈ s.running then
      runQueue { s with
        running := s.running.erase id,
        active := s.active.erase id,
        runningStreams := s.runningStreams - 1 }
    else s
  | .cancel id =>
    { s with active := s.active.erase id, queue := s.queue.erase id }

def runTrace (evs : List DEvent) : DState := evs.foldl applyEvent initState

/-- The dispatcher invariant: the running counter matches the running set and
respects the bound; popped items followed by the queue form a subsequence of
the submission order; starts are a subsequence of pops; ids are unique. -/
def GoodState (s : DState) : Prop :=
  s.runningStreams = s.running.length ∧
  s.runningStreams ≤ maxConcurrentStreams ∧
  List.Sublist (s.popped ++ s.queue) s.submitted ∧
  List.Sublist s.started s.popped ∧
  s.submitted.Nodup

theorem drainAux_good :
    ∀ (q : List Nat) (s : DState),
      s.runningStreams = s.running.length →
      s.runningStreams ≤ maxConcurrentStreams →
      List.Sublist (s.popped ++ q) s.submitted →
      List.Sublist s.started s.popped →
      s.submitted.Nodup →
      GoodState (drainAux s q) := by
  intro q
  induction q with
  | nil =>
    intro s h1 h2 h3 h4 h5
    rw [drainAux]
    exact ⟨h1, h2, by simpa using h3, h4, h5⟩
  | cons rid rest ih =>
    intro s h1 h2 h3 h4 h5
    rw [drainAux]
    split_ifs with hlt hact
    · refine ih _ ?_ ?_ ?_ ?_ h5
      · simp [h1]
      · exact hlt
      · simpa [List.append_assoc] using h3
      · exact h4.append (List.Sublist.refl [rid])
    · refine ih _ h1 h2 ?_ ?_ h5
      · simpa [List.append_assoc] using h3
      · exact h4.trans (List.sublist_append_left _ _)
    · exact ⟨h1, h2, h3, h4, h5⟩

theorem runQueue_good {s : DState} (h : GoodState s) : GoodState (runQueue s) :=
  drainAux_good s.queue s h.1 h.2.1 h.2.2.1 h.2.2.2.1 h.2.2.2.2

theorem applyEvent_good {s : DState} (h : GoodState s) (e : DEvent) :
    GoodState (applyEvent s e) := by
  obtain ⟨h1, h2, h3, h4, h5⟩ := h
  cases e with
  | submit id =>
    rw [applyEvent]
    split_ifs with hmem hcap
    · exact ⟨h1, h2, h3, h4, h5⟩
    · refine ⟨h1, h2, ?_, h4, ?_⟩
      · simpa [enqueue, List.append_assoc] using
          h3.append (List.Sublist.refl [id])
      · simp only [enqueue]
        exact List.Nodup.append h5 (List.nodup_singleton id)
          (by simpa [List.disjoint_singleton] using hmem)
    · refine runQueue_good ⟨h1, h2, ?_, h4, ?_⟩
      · simpa [enqueue, List.append_assoc] using
          h3.append (List.Sublist.refl [id])
      · simp only [enqueue]
        exact List.Nodup.append h5 (List.nodup_singleton id)
          (by simpa [List.disjoint_singleton] using hmem)
  | complete id =>
    rw [applyEvent]
    split_ifs with hrun
    · refine runQueue_good ⟨?_, ?_, h3, h4, h5⟩
      · simp only []
        rw [List.length_erase_of_mem hrun, h1]
      · show s.runningStreams - 1 ≤ maxConcurrentStreams
        omega
    · exact ⟨h1, h2, h3, h4, h5⟩
  | cancel id =>
    refine ⟨h1, h2, ?_, h4, h5⟩
    exact ((List.Sublist.refl s.popped).append
      (List.erase_sublist id s.queue)).trans h3

theorem runTrace_good (evs : List DEvent) : GoodState (runTrace evs) := by
  have hinit : GoodState initState := by
    refine ⟨rfl, by simp [initState, maxConcurrentStreams], ?_, ?_, ?_⟩ <;>
      simp [initState]
  rw [runTrace]
  induction evs using List.reverseRecOn with
  | nil => exact hinit
  | append_singleton evs e ih =>
    rw [List.foldl_append]
    exact applyEvent_good ih e

/-- C1: for every sequence of submitted requests (interleaved with arbitrary
completions and cancellations), the number of provider calls started by the
drain loop and not yet completed never exceeds `MAX_CONCURRENT_STREAMS = 2`,
and so the `runningStreams` counter never does either. -/
theorem dispatcher_concurrency_bound (evs : List DEvent) :
    (runTrace evs).running.length ≤ maxConcurrentStreams ∧
    (runTrace evs).runningStreams ≤ maxConcurrentStreams := by
  have h := runTrace_good evs
  exact ⟨h.1 ▸ h.2.1, h.2.1⟩

/-- C2: provider calls start in FIFO submission order — the start history is
a subsequence of the submission history, so a later-submitted request never
starts before an earlier-submitted one; and admission always appends the work
item to the single FIFO queue, in the free-capacity branch just as in the
at-capacity branch. -/
theorem dispatcher_fifo_start_order :
    (∀ evs : List DEvent,
      List.Sublist (runTrace evs).started (runTrace evs).submitted) ∧
    (∀ (s : DState) (id : Nat), (enqueue s id).queue = s.queue ++ [id]) ∧
    ∀ (s : DState) (id : Nat), id ∉ s.submitted →
      applyEvent s (DEvent.submit id) = enqueue s id ∨
        applyEvent s (DEvent.submit id) = runQueue (enqueue s id) := by
  refine ⟨fun evs => ?_, fun s id => rfl, fun s id hid => ?_⟩
  · have h := runTrace_good evs
    exact (h.2.2.2.1.trans (List.sublist_append_left _ _)).trans h.2.2.1
  · rw [applyEvent, if_neg hid]
    split_ifs with h2
    · exact Or.inl rfl
    · exact Or.inr rfl

/-- A request id that has been removed from the queue, is recorded as
submitted, and has not started: no later event can ever start it. -/
def DeadId (s : DState) (id : Nat) : Prop :=
  id ∉ s.queue ∧ id ∈ s.submitted ∧ id ∉ s.started

theorem drainAux_dead :
    ∀ (q : List Nat) (s : DState) (id : Nat), id ∉ q →
      id ∈ s.submitted → id ∉ s.started →
      id ∉ (drainAux s q).queue ∧ id ∈ (drainAux s q).submitted ∧
        id ∉ (drainAux s q).started := by
  intro q
  induction q with
  | nil =>
    intro s id hq hsub hst
    rw [drainAux]
    exact ⟨by simp, hsub, hst⟩
  | cons rid rest ih =>
    intro s id hq hsub hst
    have hne : id ≠ rid := by
      intro he
      exact hq (he ▸ List.mem_cons_self rid rest)
    have hrest : id ∉ rest := fun hm => hq (List.mem_cons_of_mem rid hm)
    rw [drainAux]
    split_ifs with hlt hact
    · refine ih _ id hrest hsub ?_
      simp only [List.mem_append, List.mem_singleton]
      rintro (h | h)
      · exact hst h
      · exact hne h
    · exact ih _ id hrest hsub hst
    · exact ⟨hq, hsub, hst⟩

theorem applyEvent_dead {s : DState} {id : Nat} (h : DeadId s id)
    (e : DEvent) : DeadId (applyEvent s e) id := by
  obtain ⟨hq, hsub, hst⟩ := h
  cases e with
  | submit id2 =>
    rw [applyEvent]
    split_ifs with h1 h2
    · exact ⟨hq, hsub, hst⟩
    · refine ⟨?_, by simp [enqueue, hsub], hst⟩
      simp only [enqueue, List.mem_append, List.mem_singleton]
      rintro (h | h)
      · exact hq h
      · exact h1 (h ▸ hsub)
    · have h3 : id ∉ (enqueue s id2).queue := by
        simp only [enqueue, List.mem_append, List.mem_singleton]
        rintro (h | h)
        · exact hq h
        · exact h1 (h ▸ hsub)
      exact drainAux_dead (enqueue s id2).queue (enqueue s id2) id h3
        (by simp [enqueue, hsub]) hst
  | complete id2 =>
    rw [applyEvent]
    split_ifs with h1
    · exact drainAux_dead _ _ id hq hsub hst
    · exact ⟨hq, hsub, hst⟩
  | cancel id2 =>
    refine ⟨fun hm => hq (List.mem_of_mem_erase hm), hsub, hst⟩

/-- C3: if `ai:cancel-chat` arrives while a request is still queued (not yet
popped by the drain loop, hence not yet started), then whatever events follow,
that request's run action — and hence its provider call — never executes. -/
theorem cancel_while_queued_never_starts (pre post : List DEvent) (id : Nat)
    (hq : id ∈ (runTrace pre).queue)
    (hs : id ∉ (runTrace pre).started) :
    id ∉ (runTrace (pre ++ DEvent.cancel id :: post)).started := by
  have hgood := runTrace_good pre
  have hsub : id ∈ (runTrace pre).submitted := by
    refine hgood.2.2.1.subset ?_
    exact List.mem_append_right _ hq
  have hqnodup : (runTrace pre).queue.Nodup := by
    have hall : ((runTrace pre).popped ++ (runTrace pre).queue).Nodup :=
      hgood.2.2.1.nodup hgood.2.2.2.2
    exact (List.nodup_append.mp hall).2.1
  have hdead : DeadId (applyEvent (runTrace pre) (DEvent.cancel id)) id := by
    refine ⟨?_, hsub, hs⟩
    rw [applyEvent]
    intro hm
    exact (List.Nodup.mem_erase_iff hqnodup).mp hm |>.1 rfl
  have hfold : runTrace (pre ++ DEvent.cancel id :: post) =
      post.foldl applyEvent (applyEvent (runTrace pre) (DEvent.cancel id)) := by
    rw [runTrace, List.foldl_append, List.foldl_cons]
    rfl
  rw [hfold]
  have : ∀ (l : List DEvent) (s : DState), DeadId s id →
      DeadId (l.foldl applyEvent s) id := by
    intro l
    induction l with
    | nil => intro s h; exact h
    | cons e l ih =>
      intro s h
      rw [List.foldl_cons]
      exact ih _ (applyEvent_dead h e)
  exact (this post _ hdead).2.2

/-- C3 witness: with capacity 2, a third submission stays queued; cancelling
it before any completion means it never starts even after slots free up. -/
theorem cancel_while_queued_never_starts_example :
    2 ∉ (runTrace ([DEvent.submit 0, DEvent.submit 1, DEvent.submit 2] ++
      DEvent.cancel 2 :: [DEvent.complete 0, DEvent.complete 1])).started :=
  cancel_while_queued_never_starts
    [DEvent.submit 0, DEvent.submit 1, DEvent.submit 2]
    [DEvent.complete 0, DEvent.complete 1] 2 (by decide) (by decide)

/-! ## Chat data model (src/main/ai/types.ts) -/

inductive Role where
  | system
  | user
  | assistant
deriving DecidableEq

structure ChatMessage where
  role : Role
  content : List Char
deriving DecidableEq

inductive ProviderTag where
  | openai
  | anthropic
  | xai
  | openrouter
  | openclaw
deriving DecidableEq

structure AISettings where
  provider : ProviderTag
  model : List Char
  systemPrompt : List Char
  monthlyBudgetUsd : ℚ

structure ChatRequest where
  conversationId : List Char
  messages : List ChatMessage
  maxTokens : Option Nat
  temperature : Option ℚ
  feature : Option String
  providerOverride : Option ProviderTag
  modelOverride : Option (List Char)

/-! ## withSystemPrompt (src/main/ai/providers/common.ts) -/

/-- `withSystemPrompt` of the source: leave the list unchanged when the
configured system prompt is blank or a system message is already present,
otherwise prepend one system message holding the (untrimmed) prompt. -/
def withSystemPrompt (messages : List ChatMessage) (systemPrompt : List Char) :
    List ChatMessage :=
  if (jsTrim systemPrompt).isEmpty then messages
  else if messages.any fun m => m.role == Role.system then messages
  else { role := Role.system, content := systemPrompt } :: messages

/-- C10: `withSystemPrompt` returns the list unchanged when the prompt is
blank or a system message already exists, otherwise prepends exactly one
system message with the prompt; consequently it is idempotent. -/
theorem withSystemPrompt_spec :
    (∀ (msgs : List ChatMessage) (sp : List Char),
      ((jsTrim sp).isEmpty = true → withSystemPrompt msgs sp = msgs) ∧
      ((msgs.any fun m => m.role == Role.system) = true →
        withSystemPrompt msgs sp = msgs) ∧
      ((jsTrim sp).isEmpty = false →
        (msgs.any fun m => m.role == Role.system) = false →
        withSystemPrompt msgs sp =
          { role := Role.system, content := sp } :: msgs)) ∧
    ∀ (msgs : List ChatMessage) (sp : List Char),
      withSystemPrompt (withSystemPrompt msgs sp) sp =
        withSystemPrompt msgs sp := by
  constructor
  · intro msgs sp
    refine ⟨fun h1 => ?_, fun h2 => ?_, fun h1 h2 => ?_⟩
    · simp [withSystemPrompt, h1]
    · by_cases h1 : (jsTrim sp).isEmpty <;> simp [withSystemPrompt, h1, h2]
    · simp [withSystemPrompt, h1, h2]
  · intro msgs sp
    by_cases h1 : (jsTrim sp).isEmpty
    · simp [withSystemPrompt, h1]
    · by_cases h2 : msgs.any fun m => m.role == Role.system
      · simp [withSystemPrompt, h1, h2]
      · simp [withSystemPrompt, h1, h2, List.any_cons]

/-! ## start-chat admission (src/main/ipc/ai.ts, lines 139-156)

The handler reads the stored settings and usage, resolves the provider
(`providerOverride` if set, else the configured provider), and throws before
creating any request id, queue item or network call when the API key is
missing (JavaScript falsiness: absent or empty) or the current-period
estimated cost has reached the monthly budget. -/

inductive StartChatError where
  | missingCredential (provider : ProviderTag)
  | budgetExceeded
deriving DecidableEq

/-- JavaScript truthiness of the `getAPIKey` result: `null` and the empty
string are both falsy. -/
def keyUsable : Option (List Char) → Bool
  | none => false
  | some k => !k.isEmpty

def resolvedProvider (request : ChatRequest) (settings : AISettings) :
    ProviderTag :=
  request.providerOverride.getD settings.provider

/-- The two pre-flight checks of `ai:start-chat`, in source order. -/
def startChatPreflight (apiKey : ProviderTag → Option (List Char))
    (settings : AISettings) (estimatedCostUsd : ℚ) (request : ChatRequest) :
    Option StartChatError :=
  let provider := resolvedProvider request settings
  if keyUsable (apiKey provider) = false then
    some (StartChatError.missingCredential provider)
  else if settings.monthlyBudgetUsd ≤ estimatedCostUsd then
    some StartChatError.budgetExceeded
  else none

/-- The admission path of `ai:start-chat`: on a pre-flight failure the handler
throws and the dispatcher state is untouched (no queue item, no provider
call); otherwise the fresh request is submitted to the dispatcher. -/
def startChat (apiKey : ProviderTag → Option (List Char))
    (settings : AISettings) (estimatedCostUsd : ℚ) (request : ChatRequest)
    (id : Nat) (s : DState) : Except StartChatError DState :=
  match startChatPreflight apiKey settings estimatedCostUsd request with
  | some e => Except.error e
  | none => Except.ok (applyEvent s (DEvent.submit id))

/-- C4: submission fails with a missing-credential error when no usable API
key exists for the resolved provider; fails with a budget-exceeded error
exactly when the current-period cost is not strictly below the monthly
budget; only a passing pre-flight reaches the dispatcher; and with
`monthlyBudgetUsd = 1` and `estimatedCostUsd = 1` the submission rejects with
`BudgetExceeded` before any queueing or provider call. -/
theorem start_chat_admission_checks :
    (∀ (apiKey : ProviderTag → Option (List Char)) (settings : AISettings)
        (cost : ℚ) (request : ChatRequest) (id : Nat) (s : DState),
      (keyUsable (apiKey (resolvedProvider request settings)) = false →
        startChat apiKey settings cost request id s =
          Except.error (StartChatError.missingCredential
            (resolvedProvider request settings))) ∧
      (keyUsable (apiKey (resolvedProvider request settings)) = true →
        (settings.monthlyBudgetUsd ≤ cost ↔
          startChat apiKey settings cost request id s =
            Except.error StartChatError.budgetExceeded)) ∧
      (startChatPreflight apiKey settings cost request = none →
        startChat apiKey settings cost request id s =
          Except.ok (applyEvent s (DEvent.submit id)))) ∧
    ∀ (request : ChatRequest) (id : Nat) (s : DState),
      startChat (fun _ => some ['k']) ⟨ProviderTag.openai, [], [], 1⟩ 1
        request id s = Except.error StartChatError.budgetExceeded := by
  constructor
  · intro apiKey settings cost request id s
    refine ⟨fun h1 => ?_, fun h1 => ?_, fun h1 => ?_⟩
    · simp [startChat, startChatPreflight, h1]
    · rw [startChat, startChatPreflight]
      simp only [h1]
      constructor
      · intro hb
        simp [hb]
      · intro hb
        by_cases hble : settings.monthlyBudgetUsd ≤ cost
        · exact hble
        · simp [hble] at hb
    · rw [startChat, h1]
  · intro request id s
    simp [startChat, startChatPreflight, keyUsable, resolvedProvider]

/-! ## Retry policy (`AIService.streamWithRetry`, src/main/ai/ai-service.ts)

A provider attempt either succeeds or throws; a thrown error is retried only
when the cancellation signal is untriggered, the error is a
`ProviderRequestError` with status 429 or ≥ 500, and attempts remain.  The
mock provider is a function from the attempt number to its outcome, and the
signal a function from the attempt number to its aborted state at the moment
that attempt throws. -/

inductive CallError where
  | provider (status : Nat) (message : String)
  | other (message : String)
deriving DecidableEq

/-- `error instanceof ProviderRequestError && (status === 429 || status >= 500)`. -/
def isRetryableError : CallError → Bool
  | CallError.provider status _ => status == 429 || decide (500 ≤ status)
  | CallError.other _ => false

/-- `Math.min(1000 * 2 ** (attempt - 1), 4000)`. -/
def backoffMs (attempt : Nat) : Nat := min (1000 * 2 ^ (attempt - 1)) 4000

inductive RetryOutcome where
  | ok
  | canceled
  | failed (e : CallError)
deriving DecidableEq

structure RetryRun where
  outcome : RetryOutcome
  delays : List Nat
  attempts : Nat
deriving DecidableEq

def maxAttempts : Nat := 3

/-- The `for attempt in 1..maxAttempts` loop of `streamWithRetry`, with
`remaining` the attempts left (`remaining = maxAttempts - attempt + 1`): on a
thrown error, fail with `Canceled` if the signal is already aborted, propagate
a non-retryable error or a retryable one on the final attempt, otherwise wait
the backoff delay and retry.  Records the delays waited and the number of
provider attempts made. -/
def retryFrom (behavior : Nat → Option CallError) (aborted : Nat → Bool) :
    Nat → Nat → RetryRun
  | _, 0 => ⟨RetryOutcome.failed (CallError.other "AI request failed"), [], 0⟩
  | attempt, remaining + 1 =>
    match behavior attempt with
    | none => ⟨RetryOutcome.ok, [], 1⟩
    | some e =>
      if aborted attempt then ⟨RetryOutcome.canceled, [], 1⟩
      else if isRetryableError e = false ∨ remaining = 0 then
        ⟨RetryOutcome.failed e, [], 1⟩
      else
        let rest := retryFrom behavior aborted (attempt + 1) remaining
        ⟨rest.outcome, backoffMs attempt :: rest.delays, rest.attempts + 1⟩

def streamWithRetry (behavior : Nat → Option CallError)
    (aborted : Nat → Bool) : RetryRun :=
  retryFrom behavior aborted 1 maxAttempts

theorem retryFrom_succ (behavior : Nat → Option CallError)
    (aborted : Nat → Bool) (attempt remaining : Nat) :
    retryFrom behavior aborted attempt (remaining + 1) =
      match behavior attempt with
      | none => ⟨RetryOutcome.ok, [], 1⟩
      | some e =>
        if aborted attempt then ⟨RetryOutcome.canceled, [], 1⟩
        else if isRetryableError e = false ∨ remaining = 0 then
          ⟨RetryOutcome.failed e, [], 1⟩
        else
          let rest := retryFrom behavior aborted (attempt + 1) remaining
          ⟨rest.outcome, backoffMs attempt :: rest.delays,
            rest.attempts + 1⟩ := rfl

theorem retryFrom_attempts_le (behavior : Nat → Option CallError)
    (aborted : Nat → Bool) :
    ∀ (remaining attempt : Nat),
      (retryFrom behavior aborted attempt remaining).attempts ≤ remaining := by
  intro remaining
  induction remaining with
  | zero => intro attempt; rw [retryFrom]
  | succ remaining ih =>
    intro attempt
    rw [retryFrom_succ]
    cases behavior attempt with
    | none => simp
    | some e =>
      have h3 := ih (attempt + 1)
      by_cases h1 : aborted attempt = true
      · simp [h1]
      · by_cases h2 : isRetryableError e = false ∨ remaining = 0
        · simp [h1, h2]
        · simp only [h1, h2, if_false]
          simp
          omega

/-- C5: the retry wrapper makes at most 3 provider attempts; an abort at throw
time fails immediately as canceled; a non-retryable error propagates
immediately; retryability is exactly a `ProviderRequestError` with status 429
or ≥ 500; the backoff before retrying attempt `n` is
`min(1000·2^(n-1), 4000)` ms, i.e. 1000 then 2000; three retryable failures
consume exactly 3 attempts with 2 delays; and the spec's two mocks behave as
stated (429, 429, success ⇒ success after delays 1000 and 2000; 500 thrice ⇒
failure after exactly 3 attempts). -/
theorem streamWithRetry_policy :
    (∀ (behavior : Nat → Option CallError) (aborted : Nat → Bool),
      (streamWithRetry behavior aborted).attempts ≤ 3) ∧
    (∀ (behavior : Nat → Option CallError) (aborted : Nat → Bool)
        (e : CallError) (attempt remaining : Nat),
      behavior attempt = some e → aborted attempt = true →
      retryFrom behavior aborted attempt (remaining + 1) =
        ⟨RetryOutcome.canceled, [], 1⟩) ∧
    (∀ (behavior : Nat → Option CallError) (aborted : Nat → Bool)
        (e : CallError) (attempt remaining : Nat),
      behavior attempt = some e → aborted attempt = false →
      isRetryableError e = false →
      retryFrom behavior aborted attempt (remaining + 1) =
        ⟨RetryOutcome.failed e, [], 1⟩) ∧
    (∀ e : CallError, isRetryableError e = true ↔
      ∃ status message, e = CallError.provider status message ∧
        (status = 429 ∨ 500 ≤ status)) ∧
    (backoffMs 1 = 1000 ∧ backoffMs 2 = 2000 ∧
      ∀ n, backoffMs n = min (1000 * 2 ^ (n - 1)) 4000) ∧
    (∀ (behavior : Nat → Option CallError) (aborted : Nat → Bool)
        (e1 e2 e3 : CallError),
      behavior 1 = some e1 → behavior 2 = some e2 → behavior 3 = some e3 →
      isRetryableError e1 = true → isRetryableError e2 = true →
      aborted 1 = false → aborted 2 = false → aborted 3 = false →
      streamWithRetry behavior aborted =
        ⟨RetryOutcome.failed e3, [1000, 2000], 3⟩) ∧
    (streamWithRetry
        (fun n => if n ≤ 2 then some (CallError.provider 429 "rate limited")
          else none)
        (fun _ => false) = ⟨RetryOutcome.ok, [1000, 2000], 3⟩) ∧
    streamWithRetry (fun _ => some (CallError.provider 500 "server error"))
        (fun _ => false) =
      ⟨RetryOutcome.failed (CallError.provider 500 "server error"),
        [1000, 2000], 3⟩ := by
  have hmax : maxAttempts = 2 + 1 := rfl
  refine ⟨?_, ?_, ?_, ?_, ⟨rfl, rfl, fun n => rfl⟩, ?_, by decide, by decide⟩
  · intro behavior aborted
    exact retryFrom_attempts_le behavior aborted maxAttempts 1
  · intro behavior aborted e attempt remaining h1 h2
    rw [retryFrom_succ, h1]
    simp [h2]
  · intro behavior aborted e attempt remaining h1 h2 h3
    rw [retryFrom_succ, h1]
    simp [h2, h3]
  · intro e
    cases e with
    | provider status message =>
      simp only [isRetryableError, Bool.or_eq_true, beq_iff_eq,
        decide_eq_true_eq]
      constructor
      · intro h
        exact ⟨status, message, rfl, h⟩
      · rintro ⟨s2, m2, he, h⟩
        injection he with hs hm
        subst hs
        exact h
    | other message =>
      simp only [isRetryableError]
      constructor
      · intro h
        exact absurd h (by simp)
      · rintro ⟨s2, m2, he, h⟩
        exact CallError.noConfusion he
  · intro behavior aborted e1 e2 e3 h1 h2 h3 hr1 hr2 ha1 ha2 ha3
    rw [streamWithRetry, hmax, retryFrom_succ, h1]
    simp only [ha1, Bool.false_eq_true, if_false, hr1, if_neg]
    rw [show (2 : Nat) = 1 + 1 from rfl, retryFrom_succ, h2]
    simp only [ha2, Bool.false_eq_true, if_false, hr2]
    rw [retryFrom_succ, h3]
    simp only [ha3, Bool.false_eq_true, if_false]
    simp [backoffMs]

/-! ## Cost estimator (`AIService.estimateCost` and `ESTIMATED_COSTS`,
src/main/ai/ai-service.ts)

JavaScript numbers are modelled as exact rationals; `Number(x.toFixed(d))`
as decimal rounding to `d` places, half up (all costs are non-negative). -/

/-- `Number(x.toFixed(digits))` on a non-negative amount. -/
def roundTo (digits : Nat) (x : ℚ) : ℚ :=
  (⌊x * 10 ^ digits + 1 / 2⌋ : ℚ) / 10 ^ digits

/-- The static per-model price table (USD per MTok, prompt and completion). -/
def ESTIMATED_COSTS : List (String × ℚ × ℚ) := [
  ("gpt-5", 5, 15),
  ("gpt-5-mini", 0.25, 1.2),
  ("o3", 2, 8),
  ("o4-mini", 0.4, 1.6),
  ("gpt-4o", 5, 15),
  ("gpt-4o-mini", 0.15, 0.6),
  ("gpt-4.1", 2, 8),
  ("gpt-4.1-mini", 0.4, 1.6),
  ("o3-mini", 1.1, 4.4),
  ("claude-opus-4-1", 15, 75),
  ("claude-sonnet-4", 3, 15),
  ("claude-opus-4-0", 15, 75),
  ("claude-haiku-4-5", 1, 5),
  ("claude-sonnet-4-20250514", 3, 15),
  ("claude-opus-4-0-20250514", 15, 75),
  ("claude-haiku-4-5-20251001", 1, 5),
  ("grok-4", 6, 18),
  ("grok-3", 5, 15),
  ("grok-3-mini", 0.3, 0.7),
  ("moonshotai/kimi-k2:free", 0, 0),
  ("moonshotai/kimi-k2", 1, 3),
  ("qwen/qwen3-coder:free", 0, 0),
  ("qwen/qwen-2.5-72b-instruct:free", 0, 0)]

def lookupCost (model : String) : Option (ℚ × ℚ) :=
  (ESTIMATED_COSTS.find? fun e => e.1 == model).map Prod.snd

/-- `AIService.estimateCost`: zero for unknown models, otherwise the per-MTok
prices applied to the token counts, rounded to 6 decimal places. -/
def estimateCost (model : String) (promptTokens completionTokens : ℚ) : ℚ :=
  match lookupCost model with
  | none => 0
  | some (pp, cp) =>
    roundTo 6 (promptTokens / 1000000 * pp + completionTokens / 1000000 * cp)

/-- C7: `estimateCost` equals the spec's formula — token counts divided by one
million times the model's per-MTok prices, rounded to 6 decimal places — and
equals 0 for models absent from the table; at one million prompt tokens on
the $5/MTok model `gpt-5` it returns exactly 5. -/
theorem estimateCost_spec :
    (∀ (model : String) (p c pp cp : ℚ),
      lookupCost model = some (pp, cp) →
      estimateCost model p c = roundTo 6 (p / 1000000 * pp + c / 1000000 * cp)) ∧
    (∀ (model : String) (p c : ℚ),
      lookupCost model = none → estimateCost model p c = 0) ∧
    estimateCost "gpt-5" 1000000 0 = 5 := by
  refine ⟨fun model p c pp cp h => ?_, fun model p c h => ?_, ?_⟩
  · rw [estimateCost, h]
  · rw [estimateCost, h]
  · have he : estimateCost "gpt-5" 1000000 0 =
        roundTo 6 (1000000 / 1000000 * 5 + 0 / 1000000 * 15) := rfl
    rw [he, roundTo]
    norm_num

/-! ## Usage ledger (`ai:start-chat` completion path, src/main/ipc/ai.ts
lines 178-208)

`daily` and `featureCosts` are JavaScript objects used as string-keyed maps;
the update `{...obj, [k]: v}` replaces the existing entry or appends a new
one.  All additions are rounded to 4 decimal places. -/

def getv (m : List (String × ℚ)) (k : String) : ℚ :=
  match m.find? fun e => e.1 == k with
  | some e => e.2
  | none => 0

def setv : List (String × ℚ) → String → ℚ → List (String × ℚ)
  | [], k, v => [(k, v)]
  | (k', v') :: rest, k, v =>
    if k' == k then (k, v) :: rest else (k', v') :: setv rest k v

def sumv (m : List (String × ℚ)) : ℚ := (m.map Prod.snd).sum

structure AIUsage where
  periodKey : String
  promptTokens : Nat
  completionTokens : Nat
  estimatedCostUsd : ℚ
  daily : List (String × ℚ)
  featureCosts : List (String × ℚ)
deriving DecidableEq

def emptyUsage (periodKey : String) : AIUsage := ⟨periodKey, 0, 0, 0, [], []⟩

/-- The per-completion ledger update: lazily reset when the stored period key
is not the current month, then add the tokens and the (4-decimal-rounded)
cost to the total, to today's daily bucket, and to the request's feature
bucket (default feature `"chat"`). -/
def updateUsage (latest : AIUsage) (periodKey dayKey : String)
    (feature : Option String) (promptTok completionTok : Nat) (cost : ℚ) :
    AIUsage :=
  let usage := if latest.periodKey == periodKey then latest
    else emptyUsage periodKey
  let f := feature.getD "chat"
  { periodKey := periodKey,
    promptTokens := usage.promptTokens + promptTok,
    completionTokens := usage.completionTokens + completionTok,
    estimatedCostUsd := roundTo 4 (usage.estimatedCostUsd + cost),
    daily := setv usage.daily dayKey (roundTo 4 (getv usage.daily dayKey + cost)),
    featureCosts :=
      setv usage.featureCosts f (roundTo 4 (getv usage.featureCosts f + cost)) }

/-- A rational that lies on the 4-decimal grid (every value the ledger stores
is a `toFixed(4)` result or zero). -/
def grid4 (x : ℚ) : Prop := (x * 10000).den = 1

/-- The ledger invariant: the running total equals the sum of the daily
buckets and the sum of the feature buckets (exactly, since every stored value
lies on the 4-decimal grid). -/
def UsageInv (u : AIUsage) : Prop :=
  u.estimatedCostUsd = sumv u.daily ∧
  u.estimatedCostUsd = sumv u.featureCosts ∧
  grid4 u.estimatedCostUsd ∧
  (∀ e ∈ u.daily, grid4 e.2) ∧
  (∀ e ∈ u.featureCosts, grid4 e.2)

theorem sumv_setv (k : String) (v : ℚ) :
    ∀ m : List (String × ℚ), sumv (setv m k v) = sumv m + v - getv m k := by
  intro m
  induction m with
  | nil => simp [setv, sumv, getv]
  | cons e rest ih =>
    by_cases h : e.1 == k
    · simp [setv, h, sumv, getv, List.find?]
      ring
    · simp only [setv]
      rw [if_neg (by simpa using h)]
      simp only [sumv, List.map_cons, List.sum_cons] at ih ⊢
      rw [ih]
      simp [getv, List.find?, h]
      ring

theorem grid4_zero : grid4 0 := by
  simp [grid4]

theorem grid4_roundTo4 (x : ℚ) : grid4 (roundTo 4 x) := by
  rw [grid4, roundTo]
  have h4 : ((10 : ℚ) ^ 4) = 10000 := by norm_num
  rw [h4, div_mul_cancel₀ _ (by norm_num : (10000 : ℚ) ≠ 0)]
  exact Rat.den_intCast _

theorem grid4_getv {m : List (String × ℚ)} (h : ∀ e ∈ m, grid4 e.2)
    (k : String) : grid4 (getv m k) := by
  rw [getv]
  cases hf : m.find? fun e => e.1 == k with
  | none => exact grid4_zero
  | some e => exact h e (List.mem_of_find?_eq_some hf)

theorem grid4_setv {m : List (String × ℚ)} (h : ∀ e ∈ m, grid4 e.2)
    {v : ℚ} (hv : grid4 v) (k : String) :
    ∀ e ∈ setv m k v, grid4 e.2 := by
  induction m with
  | nil =>
    intro e he
    simp only [setv, List.mem_singleton] at he
    rw [he]
    exact hv
  | cons p rest ih =>
    intro e he
    simp only [setv] at he
    split_ifs at he with hk
    · rcases List.mem_cons.mp he with h1 | h1
      · rw [h1]; exact hv
      · exact h e (List.mem_cons_of_mem p h1)
    · rcases List.mem_cons.mp he with h1 | h1
      · rw [h1]; exact h p (List.mem_cons_self p rest)
      · exact ih (fun e2 he2 => h e2 (List.mem_cons_of_mem p he2)) e h1

/-- Adding to a grid-aligned amount commutes with 4-decimal rounding:
`round4 (a + c) = a + round4 c`. -/
theorem roundTo4_add_grid {a : ℚ} (ha : grid4 a) (c : ℚ) :
    roundTo 4 (a + c) = a + roundTo 4 c := by
  rw [grid4] at ha
  have hnum : ((a * 10000).num : ℚ) = a * 10000 :=
    Rat.den_eq_one_iff _ |>.mp ha
  rw [roundTo, roundTo]
  have hsplit : (a + c) * 10 ^ 4 + 1 / 2 =
      ((a * 10000).num : ℚ) + (c * 10 ^ 4 + 1 / 2) := by
    rw [hnum]
    ring
  rw [hsplit, Int.floor_int_add]
  push_cast
  rw [add_div]
  congr 1
  rw [hnum]
  norm_num

theorem usageInv_empty (periodKey : String) : UsageInv (emptyUsage periodKey) := by
  refine ⟨rfl, rfl, grid4_zero, ?_, ?_⟩ <;> simp [emptyUsage]

/-- C8: the per-completion ledger update preserves the usage invariant
(total = sum of daily buckets = sum of feature buckets, all on the 4-decimal
grid), and when the stored period key differs from the current month the
counters are first reset: the update behaves exactly as if applied to a fresh
ledger for the new period. -/
theorem updateUsage_invariant (u : AIUsage) (periodKey dayKey : String)
    (feature : Option String) (promptTok completionTok : Nat) (cost : ℚ)
    (h : UsageInv u) :
    UsageInv (updateUsage u periodKey dayKey feature promptTok completionTok
      cost) ∧
    (u.periodKey ≠ periodKey →
      updateUsage u periodKey dayKey feature promptTok completionTok cost =
        updateUsage (emptyUsage periodKey) periodKey dayKey feature promptTok
          completionTok cost) := by
  constructor
  · have hbase : UsageInv (if u.periodKey == periodKey then u
        else emptyUsage periodKey) := by
      split_ifs
      · exact h
      · exact usageInv_empty periodKey
    set base := if u.periodKey == periodKey then u else emptyUsage periodKey
      with hbasedef
    obtain ⟨hb1, hb2, hb3, hb4, hb5⟩ := hbase
    have hupd : updateUsage u periodKey dayKey feature promptTok completionTok
        cost = ⟨periodKey, base.promptTokens + promptTok,
          base.completionTokens + completionTok,
          roundTo 4 (base.estimatedCostUsd + cost),
          setv base.daily dayKey (roundTo 4 (getv base.daily dayKey + cost)),
          setv base.featureCosts (feature.getD "chat")
            (roundTo 4 (getv base.featureCosts (feature.getD "chat") + cost))⟩ := rfl
    rw [hupd]
    refine ⟨?_, ?_, grid4_roundTo4 _, ?_, ?_⟩
    · show roundTo 4 (base.estimatedCostUsd + cost) =
        sumv (setv base.daily dayKey (roundTo 4 (getv base.daily dayKey + cost)))
      rw [sumv_setv, roundTo4_add_grid hb3,
        roundTo4_add_grid (grid4_getv hb4 dayKey), hb1]
      ring
    · show roundTo 4 (base.estimatedCostUsd + cost) =
        sumv (setv base.featureCosts (feature.getD "chat")
          (roundTo 4 (getv base.featureCosts (feature.getD "chat") + cost)))
      rw [sumv_setv, roundTo4_add_grid hb3,
        roundTo4_add_grid (grid4_getv hb5 (feature.getD "chat")), hb2]
      ring
    · exact grid4_setv hb4 (grid4_roundTo4 _) dayKey
    · exact grid4_setv hb5 (grid4_roundTo4 _) (feature.getD "chat")
  · intro hne
    have h1 : (u.periodKey == periodKey) = false := by
      simpa using hne
    rw [updateUsage, updateUsage, h1]
    simp [emptyUsage]

/-- C8 witness: the invariant holds after an update that crosses a period
boundary (reset) and after a same-period update on the resulting state. -/
theorem updateUsage_invariant_witness :
    UsageInv (updateUsage (emptyUsage "2025-09") "2025-10" "2025-10-11"
      (some "url_bar") 1000 500 (123 / 10000)) ∧
    ((emptyUsage "2025-09").periodKey ≠ "2025-10" →
      updateUsage (emptyUsage "2025-09") "2025-10" "2025-10-11"
        (some "url_bar") 1000 500 (123 / 10000) =
      updateUsage (emptyUsage "2025-10") "2025-10" "2025-10-11"
        (some "url_bar") 1000 500 (123 / 10000)) :=
  updateUsage_invariant (emptyUsage "2025-09") "2025-10" "2025-10-11"
    (some "url_bar") 1000 500 (123 / 10000) (usageInv_empty "2025-09")

/-! ## Provider HTTP error formatting

`ProviderRequestError` (src/main/ai/providers/common.ts) carries the HTTP
status and a message.  The xAI, OpenRouter and OpenClaw clients build the
message with `formatProviderError`; the OpenAI and Anthropic clients build a
generic `"<provider> request failed (<status>): <body>"` string inline. -/

structure ProviderRequestError where
  message : String
  status : Nat
deriving DecidableEq

/-- The OpenAI client's non-success message (openai-provider.ts):
`OpenAI request failed (status): details`. -/
def openaiErrorMessage (status : Nat) (details : String) : String :=
  "OpenAI request failed (" ++ toString status ++ "): " ++ details

/-- The Anthropic client's non-success message (anthropic-provider.ts). -/
def anthropicErrorMessage (status : Nat) (details : String) : String :=
  "Anthropic request failed (" ++ toString status ++ "): " ++ details

/-- Machine codes denoting an exhausted quota or missing funds. -/
def quotaMachineCodes : List String :=
  ["insufficient_quota", "insufficient_funds", "quota_exceeded",
    "billing_hard_limit_reached"]

/-- Modelled from the spec: `formatProviderError` is imported from
`providers/common` by the xAI, OpenRouter and OpenClaw clients, but its
definition is not among the repository's files.  Per spec §4.2/§7 it reads
the error body, extracts a machine field (`code`/`type`) when present —
abstracted here as the already-extracted optional `machineCode` — and
humanizes the message by status class: 401 → credential invalid; 429 with a
quota/insufficient-funds code → quota exceeded; other 429 → rate limited;
≥500 → transient/unavailable; anything else → a generic
`request failed (status)` message including the server-provided text. -/
def formatProviderError (provider : String) (status : Nat)
    (machineCode : Option String) (details : String) : String :=
  if status = 401 then
    provider ++ " API key is invalid or unauthorized. Update it in settings."
  else if status = 429 then
    if machineCode.any fun code => quotaMachineCodes.contains code then
      provider ++ " quota exceeded or insufficient credits."
    else provider ++ " rate limit reached. Try again shortly."
  else if 500 ≤ status then
    provider ++ " is temporarily unavailable. Try again later."
  else provider ++ " request failed (" ++ toString status ++ "): " ++ details

/-- The xAI client's thrown error (xai-provider.ts line 31). -/
def xaiHttpError (status : Nat) (machineCode : Option String)
    (details : String) : ProviderRequestError :=
  ⟨formatProviderError "xAI" status machineCode details, status⟩

/-- The OpenRouter client's thrown error (openrouter-provider.ts line 33). -/
def openrouterHttpError (status : Nat) (machineCode : Option String)
    (details : String) : ProviderRequestError :=
  ⟨formatProviderError "OpenRouter" status machineCode details, status⟩

/-- The OpenClaw client's thrown error (openclaw-provider.ts). -/
def openclawHttpError (status : Nat) (machineCode : Option String)
    (details : String) : ProviderRequestError :=
  ⟨formatProviderError "OpenClaw" status machineCode details, status⟩

/-- The OpenAI client's thrown error (openai-provider.ts line 31). -/
def openaiHttpError (status : Nat) (details : String) :
    ProviderRequestError :=
  ⟨openaiErrorMessage status details, status⟩

/-- The Anthropic client's thrown error (anthropic-provider.ts line 41). -/
def anthropicHttpError (status : Nat) (details : String) :
    ProviderRequestError :=
  ⟨anthropicErrorMessage status details, status⟩

/-- C9 counterexample: the claim as stated fails for the OpenAI client — its
401 message is the generic `request failed` string, not the
credential-invalid humanized message. -/
theorem openai_401_not_humanized :
    (openaiHttpError 401 "").message ≠
      formatProviderError "OpenAI" 401 none "" := by
  decide

/-- C9 (amended): every provider client fails with a `ProviderRequestError`
carrying the HTTP status; the xAI, OpenRouter and OpenClaw clients humanize
the message by status class through `formatProviderError` (401 → credential
invalid, 429 with a quota machine code → quota exceeded, other 429 → rate
limited, ≥500 → transient/unavailable), while the OpenAI and Anthropic
clients use the generic `request failed (status): body` message. -/
theorem provider_http_error_spec :
    (∀ (status : Nat) (mc : Option String) (details : String),
      (xaiHttpError status mc details).status = status ∧
      (openrouterHttpError status mc details).status = status ∧
      (openclawHttpError status mc details).status = status ∧
      (openaiHttpError status details).status = status ∧
      (anthropicHttpError status details).status = status ∧
      (xaiHttpError status mc details).message =
        formatProviderError "xAI" status mc details ∧
      (openrouterHttpError status mc details).message =
        formatProviderError "OpenRouter" status mc details ∧
      (openclawHttpError status mc details).message =
        formatProviderError "OpenClaw" status mc details ∧
      (openaiHttpError status details).message =
        "OpenAI request failed (" ++ toString status ++ "): " ++ details ∧
      (anthropicHttpError status details).message =
        "Anthropic request failed (" ++ toString status ++ "): " ++ details) ∧
    ∀ (provider : String) (status : Nat) (mc : Option String)
        (details : String),
      (status = 401 → formatProviderError provider status mc details =
        provider ++ " API key is invalid or unauthorized. Update it in settings.") ∧
      (status = 429 →
        (mc.any fun code => quotaMachineCodes.contains code) = true →
        formatProviderError provider status mc details =
          provider ++ " quota exceeded or insufficient credits.") ∧
      (status = 429 →
        (mc.any fun code => quotaMachineCodes.contains code) = false →
        formatProviderError provider status mc details =
          provider ++ " rate limit reached. Try again shortly.") ∧
      (500 ≤ status → formatProviderError provider status mc details =
        provider ++ " is temporarily unavailable. Try again later.") ∧
      (status ≠ 401 → status ≠ 429 → status < 500 →
        formatProviderError provider status mc details =
          provider ++ " request failed (" ++ toString status ++ "): " ++
            details) := by
  constructor
  · intro status mc details
    exact ⟨rfl, rfl, rfl, rfl, rfl, rfl, rfl, rfl, rfl, rfl⟩
  · intro provider status mc details
    refine ⟨fun h1 => ?_, fun h1 h2 => ?_, fun h1 h2 => ?_, fun h1 => ?_,
      fun h1 h2 h3 => ?_⟩
    · simp [formatProviderError, h1]
    · simp at h2
      simp [formatProviderError, h1, h2]
    · simp at h2
      simp [formatProviderError, h1, h2]
    · have h401 : status ≠ 401 := by omega
      have h429 : status ≠ 429 := by omega
      simp [formatProviderError, h401, h429, h1]
    · simp [formatProviderError, h1, h2, Nat.not_le.mpr h3]

end LumenAI
